import Mathlib

/-!
Verification of the DualTokenSim AMM core against its specification.

The Python sources are shallowly embedded over exact rational arithmetic
(`ℚ` stands for Python floats; "within floating tolerance" statements become
exact equalities).  Mutation is modelled by explicit state passing and every
fallible operation (one that may raise `ValueError` / `ZeroDivisionError`)
returns an `Option`, with `none` standing for the raised error.
-/

namespace DualTokenSim

/-- A token's mutable bookkeeping state, from `source/tokens/token.py`
(fields `_supply`, `_free_supply`, `_price`).  Identity of token objects is
modelled separately by `TokenRef`. -/
structure Token where
  supply : ℚ
  freeSupply : ℚ
  price : ℚ
deriving DecidableEq

/-- The free-supply property setter of `source/tokens/token.py`
(`free_supply.setter`): values in the open interval (-0.01, 0.01) snap to 0,
then negative values and values above `supply` raise `ValueError`. -/
def Token.setFreeSupply (t : Token) (v : ℚ) : Option Token :=
  let v' := if -1/100 < v ∧ v < 1/100 then 0 else v
  if v' < 0 then none
  else if t.supply < v' then none
  else some { t with freeSupply := v' }

/-- `SeignorageModelToken.mint` from `source/Tokens/seignorage_model_token.py`:
raises unless `0 < amount`, then increases the supply. -/
def Token.mint (t : Token) (amount : ℚ) : Option Token :=
  if amount ≤ 0 then none
  else some { t with supply := t.supply + amount }

/-- `SeignorageModelToken.burn` from `source/Tokens/seignorage_model_token.py`:
raises unless `0 < amount ≤ supply`, then decreases the supply. -/
def Token.burn (t : Token) (amount : ℚ) : Option Token :=
  if amount ≤ 0 then none
  else if t.supply < amount then none
  else some { t with supply := t.supply - amount }

/-- Which token object is handed to a pool method.  Tokens are compared by
object identity (`Token.is_equal`, `is`), so a pool sees exactly three cases:
its `token_a`, its `token_b`, or some unrelated object. -/
inductive TokenRef
  | a
  | b
  | other
deriving DecidableEq

/-- Python's `/` on numbers: raises `ZeroDivisionError` on a zero divisor. -/
def pydiv (x y : ℚ) : Option ℚ :=
  if y = 0 then none else some (x / y)

/-- `ConstantProductFormula.apply` from
`source/LiquidityPools/constant_product_formula.py`: validates that all three
arguments are strictly positive, then returns
`output_reserve * input_quantity / (input_reserve + input_quantity)`. -/
def cpfApply (inputQuantity inputReserve outputReserve : ℚ) : Option ℚ :=
  if inputQuantity ≤ 0 then none
  else if inputReserve ≤ 0 then none
  else if outputReserve ≤ 0 then none
  else some (outputReserve * inputQuantity / (inputReserve + inputQuantity))

/-- Modelled from the spec: `ConstantProductFormula.inverse_apply` is declared
abstractly in `source/LiquidityPools/formula.py` and called by
`LiquidityPool.swap`, but its concrete constant-product override is not among
the source files.  Following the spec's words: the algebraic inverse
`input_amount = input_reserve * output_quantity / (output_reserve - output_quantity)`,
failing with a validation error when any quantity or reserve is non-positive
or when `output_quantity` is not strictly below `output_reserve`. -/
def cpfInverseApply (outputQuantity inputReserve outputReserve : ℚ) : Option ℚ :=
  if outputQuantity ≤ 0 then none
  else if inputReserve ≤ 0 then none
  else if outputReserve ≤ 0 then none
  else if outputReserve ≤ outputQuantity then none
  else some (inputReserve * outputQuantity / (outputReserve - outputQuantity))

/-- `LiquidityPool.compute_swap_value` from
`source/liquidity_pools/liquidity_pool.py`: applies the fee to the input and
delegates to the formula. -/
def computeSwapValue (fee inputQuantity inputReserve outputReserve : ℚ) : Option ℚ :=
  cpfApply (inputQuantity * (1 - fee)) inputReserve outputReserve

/-- `LiquidityPool.compute_inverse_swap_value` from
`source/liquidity_pools/liquidity_pool.py`: delegates to the inverse formula
and inflates the computed input by `1 / (1 - fee)`. -/
def computeInverseSwapValue (fee outputQuantity inputReserve outputReserve : ℚ) : Option ℚ :=
  match cpfInverseApply outputQuantity inputReserve outputReserve with
  | none => none
  | some inputAmount => pydiv inputAmount (1 - fee)

/-- `LiquidityPool` state, from `source/liquidity_pools/liquidity_pool.py`:
the two reserves, the fee, and the two collaborating token objects
(`token_a`, `token_b`). -/
structure LiquidityPool where
  qa : ℚ
  qb : ℚ
  fee : ℚ
  tokA : Token
  tokB : Token
deriving DecidableEq

/-- The reserve-arithmetic core of `LiquidityPool.swap`
(`source/liquidity_pools/liquidity_pool.py`, lines 58-92): selects
input/output reserves by token side and sign of `amount`, computes the other
amount (forward via `compute_swap_value` for `amount > 0`, inverse via
`compute_inverse_swap_value` for `amount < 0`, no-op for `amount = 0`),
and runs `update_pool_quantities`, which raises if a new reserve is negative.
The source assigns `input_reserve, output_reserve` once, before branching on
the sign; here that selection is inlined into each sign/side branch with the
identical values (`isA`/`amount ≥ 0` → `(qa, qb)`, `isA`/`amount < 0` →
`(qb, qa)`, and mirrored for `token_b`), and `update_pool_quantities`'s
argument order per branch is preserved.
Returns `(other_amount, new_quantity_token_a, new_quantity_token_b)`. -/
def swapAux (fee qa qb : ℚ) (isA : Bool) (amount : ℚ) : Option (ℚ × ℚ × ℚ) :=
  if 0 < amount then
    if isA then
      match computeSwapValue fee amount qa qb with
      | none => none
      | some outAmt =>
        if qa + amount < 0 ∨ qb - outAmt < 0 then none
        else some (outAmt, qa + amount, qb - outAmt)
    else
      match computeSwapValue fee amount qb qa with
      | none => none
      | some outAmt =>
        if qa - outAmt < 0 ∨ qb + amount < 0 then none
        else some (outAmt, qa - outAmt, qb + amount)
  else if amount < 0 then
    if isA then
      match computeInverseSwapValue fee (-amount) qb qa with
      | none => none
      | some inAmt =>
        if qa - -amount < 0 ∨ qb + inAmt < 0 then none
        else some (inAmt, qa - -amount, qb + inAmt)
    else
      match computeInverseSwapValue fee (-amount) qa qb with
      | none => none
      | some inAmt =>
        if qa + inAmt < 0 ∨ qb - -amount < 0 then none
        else some (inAmt, qa + inAmt, qb - -amount)
  else some (0, qa, qb)

/-- `LiquidityPool.update_supplies` from
`source/liquidity_pools/liquidity_pool.py`: when `amount ≠ 0`, the input
token's free supply decreases by `amount` and the other token's free supply
moves by `other_amount * (amount / |amount|)`, both through the validating
free-supply setter. -/
def LiquidityPool.updateSupplies (p : LiquidityPool) (tokenIsA : Bool)
    (amount otherAmount : ℚ) : Option LiquidityPool :=
  if amount = 0 then some p
  else
    if tokenIsA then
      match p.tokA.setFreeSupply (p.tokA.freeSupply - amount) with
      | none => none
      | some ta =>
        match p.tokB.setFreeSupply (p.tokB.freeSupply + otherAmount * (amount / |amount|)) with
        | none => none
        | some tb => some { p with tokA := ta, tokB := tb }
    else
      match p.tokB.setFreeSupply (p.tokB.freeSupply - amount) with
      | none => none
      | some tb =>
        match p.tokA.setFreeSupply (p.tokA.freeSupply + otherAmount * (amount / |amount|)) with
        | none => none
        | some ta => some { p with tokA := ta, tokB := tb }

/-- `LiquidityPool.swap` from `source/liquidity_pools/liquidity_pool.py`:
rejects a token that is neither `token_a` nor `token_b`, performs the signed
reserve update, then the free-supply bookkeeping, and returns the other token
with the other amount. -/
def LiquidityPool.swap (p : LiquidityPool) (token : TokenRef) (amount : ℚ) :
    Option (TokenRef × ℚ × LiquidityPool) :=
  match token with
  | .other => none
  | .a =>
    match swapAux p.fee p.qa p.qb true amount with
    | none => none
    | some (otherAmt, qa', qb') =>
      match LiquidityPool.updateSupplies { p with qa := qa', qb := qb' } true amount otherAmt with
      | none => none
      | some p' => some (.b, otherAmt, p')
  | .b =>
    match swapAux p.fee p.qa p.qb false amount with
    | none => none
    | some (otherAmt, qa', qb') =>
      match LiquidityPool.updateSupplies { p with qa := qa', qb := qb' } false amount otherAmt with
      | none => none
      | some p' => some (.a, otherAmt, p')

/-- A sequence of `swap` calls executed left to right; `none` as soon as one
of them raises. -/
def swapSeq (p : LiquidityPool) : List (TokenRef × ℚ) → Option LiquidityPool
  | [] => some p
  | (t, amt) :: rest =>
    match p.swap t amt with
    | none => none
    | some (_, _, p') => swapSeq p' rest

/-- The concrete fee-free pool of C3's end-to-end scenario: reserves
`(5000, 5000)`, generously but finitely supplied tokens. -/
def c3ExamplePool : LiquidityPool :=
  { qa := 5000, qb := 5000, fee := 0,
    tokA := { supply := 1000000, freeSupply := 1000000, price := 1 },
    tokB := { supply := 1000000, freeSupply := 0, price := 1 } }

/-- The pool state expected after C3's end-to-end swap of 100 units of
`token_a` into `c3ExamplePool`. -/
def c3ExamplePoolAfter : LiquidityPool :=
  { qa := 5100, qb := 5000 - 5000 * 100 / 5100, fee := 0,
    tokA := { supply := 1000000, freeSupply := 999900, price := 1 },
    tokB := { supply := 1000000, freeSupply := 5000 / 51, price := 1 } }

/-- A concrete fee-free pool used to witness C1's exact-invariance part. -/
def c1FeeFreePool : LiquidityPool :=
  { qa := 1000, qb := 1000, fee := 0,
    tokA := { supply := 1000000, freeSupply := 1000000, price := 1 },
    tokB := { supply := 1000000, freeSupply := 1000, price := 1 } }

/-- State of `c1FeeFreePool` after swapping 100 units of `token_a`. -/
def c1FeeFreePoolAfter : LiquidityPool :=
  { qa := 1100, qb := 10000 / 11, fee := 0,
    tokA := { supply := 1000000, freeSupply := 999900, price := 1 },
    tokB := { supply := 1000000, freeSupply := 1000 + 1000 / 11, price := 1 } }

/-- A concrete pool with fee 1% used to witness C1's strict-increase part. -/
def c1FeePool : LiquidityPool :=
  { qa := 1000, qb := 1000, fee := 1 / 100,
    tokA := { supply := 1000000, freeSupply := 1000000, price := 1 },
    tokB := { supply := 1000000, freeSupply := 1000, price := 1 } }

/-- State of `c1FeePool` after swapping 100 units of `token_a`. -/
def c1FeePoolAfter : LiquidityPool :=
  { qa := 1100, qb := 1000 - 99000 / 1099, fee := 1 / 100,
    tokA := { supply := 1000000, freeSupply := 999900, price := 1 },
    tokB := { supply := 1000000, freeSupply := 1000 + 99000 / 1099, price := 1 } }

/-- `VirtualLiquidityPool` state, from
`source/liquidity_pools/virtual_liquidity_pool.py`: a liquidity pool whose
reserves are a derived view recomputed from `stablecoin_base_quantity`,
`delta` and `collateral_price`; `token_a` is the stablecoin and `token_b`
the collateral. -/
structure VirtualPool where
  base : ℚ
  collateralPrice : ℚ
  fee : ℚ
  delta : ℚ
  qa : ℚ
  qb : ℚ
  tokA : Token
  tokB : Token
deriving DecidableEq

/-- `VirtualLiquidityPool.update_supplies` (overriding the base pool's):
burns the input amount from the input token and mints the other amount on
the other token, in that order. -/
def VirtualPool.updateSupplies (p : VirtualPool) (tokenIsA : Bool)
    (amount otherAmount : ℚ) : Option VirtualPool :=
  if tokenIsA then
    match p.tokA.burn amount with
    | none => none
    | some ta =>
      match p.tokB.mint otherAmount with
      | none => none
      | some tb => some { p with tokA := ta, tokB := tb }
  else
    match p.tokB.burn amount with
    | none => none
    | some tb =>
      match p.tokA.mint otherAmount with
      | none => none
      | some ta => some { p with tokA := ta, tokB := tb }

/-- `super().swap(token, amount)` as seen by the virtual pool:
`LiquidityPool.swap`'s body with `self.update_supplies` dynamically bound to
`VirtualLiquidityPool.update_supplies` (burn/mint instead of free-supply
bookkeeping). -/
def VirtualPool.baseSwap (p : VirtualPool) (token : TokenRef) (amount : ℚ) :
    Option (TokenRef × ℚ × VirtualPool) :=
  match token with
  | .other => none
  | .a =>
    match swapAux p.fee p.qa p.qb true amount with
    | none => none
    | some (otherAmt, qa', qb') =>
      match VirtualPool.updateSupplies { p with qa := qa', qb := qb' } true amount otherAmt with
      | none => none
      | some p' => some (.b, otherAmt, p')
  | .b =>
    match swapAux p.fee p.qa p.qb false amount with
    | none => none
    | some (otherAmt, qa', qb') =>
      match VirtualPool.updateSupplies { p with qa := qa', qb := qb' } false amount otherAmt with
      | none => none
      | some p' => some (.a, otherAmt, p')

/-- `VirtualLiquidityPool.swap`, parameterized by the abstract `update_delta`
hook `upd` that concrete subclasses provide: first the reserves are
recomputed fresh from `(stablecoin_base_quantity + delta)` and
`(stablecoin_base_quantity / collateral_price)`, then the base `swap` runs,
then `update_delta` is called with `+amount` if the input token was the
stablecoin and `-output_amount` if it was the collateral. -/
def VirtualPool.swapWith (upd : VirtualPool → ℚ → VirtualPool) (p : VirtualPool)
    (token : TokenRef) (amount : ℚ) : Option (TokenRef × ℚ × VirtualPool) :=
  match pydiv p.base p.collateralPrice with
  | none => none
  | some qbNew =>
    match VirtualPool.baseSwap { p with qa := p.base + p.delta, qb := qbNew } token amount with
    | none => none
    | some (otok, oamt, p2) =>
      let variation := match token with
        | .a => amount
        | _ => -oamt
      some (otok, oamt, upd p2 variation)

/-- `SimpleVirtualLiquidityPool.update_delta` from
`source/liquidity_pools/simple_virtual_liquidity_pool.py`: plain addition. -/
def simpleUpdateDelta (p : VirtualPool) (v : ℚ) : VirtualPool :=
  { p with delta := p.delta + v }

/-- A concrete virtual pool used to witness C4 and C10. -/
def c4ExamplePool : VirtualPool :=
  { base := 100, collateralPrice := 1, fee := 0, delta := 0, qa := 0, qb := 0,
    tokA := { supply := 1000, freeSupply := 0, price := 1 },
    tokB := { supply := 1000, freeSupply := 0, price := 1 } }

/-- The state expected after `c4ExamplePool.swapWith simpleUpdateDelta .a 10`:
recomputed reserves `(100, 100)`, then a fee-free swap of 10 stablecoins. -/
def c4ExamplePoolAfter : VirtualPool :=
  { base := 100, collateralPrice := 1, fee := 0, delta := 10, qa := 110,
    qb := 100 - 100 / 11,
    tokA := { supply := 990, freeSupply := 0, price := 1 },
    tokB := { supply := 1000 + 100 / 11, freeSupply := 0, price := 1 } }

/-- `ImprovedVirtualLiquidityPool`'s recovery state, from
`source/LiquidityPools/improved_virtual_liquidity_pool.py`: `delta`, the
`restore_values` window, the configured `pool_recovery_period` and the last
observed `stablecoin_price`.  The inherited reserve/token fields are not
touched by any of the recovery operations modelled here. -/
structure ImprovedPool where
  delta : ℚ
  restoreValues : List ℚ
  poolRecoveryPeriod : ℤ
  stablecoinPrice : ℚ
deriving DecidableEq

/-- `ImprovedVirtualLiquidityPool.__init__`: `delta = 0` (set by the
`VirtualLiquidityPool` constructor) and `restore_values = [0] * T`. -/
def ImprovedPool.init (T : ℤ) (price : ℚ) : ImprovedPool :=
  { delta := 0, restoreValues := List.replicate T.toNat 0,
    poolRecoveryPeriod := T, stablecoinPrice := price }

/-- `self.values = [0.95 + i * 0.005 for i in range(9)]`. -/
def thresholdValues : List ℚ :=
  (List.range 9).map (fun i => 95 / 100 + (i : ℚ) * (5 / 1000))

/-- The loop `for i, val in enumerate(reversed(self.values)): if price > val:
... break` as a recursion carrying the running index. -/
def findFirstBelow (price : ℚ) : List ℚ → ℕ → Option ℕ
  | [], _ => none
  | v :: rest, i => if v < price then some i else findFirstBelow price rest (i + 1)

/-- `ImprovedVirtualLiquidityPool.compute_restore_values_new_length`.
In exact arithmetic `pool_recovery_period * (1 - i * 0.1)` is
`T * (10 - i) / 10`, a value with one decimal digit, so Python's
`round(·, 5)` is the identity on it and the final `int(...)` truncates
toward zero: `(T * (10 - i)).tdiv 10`.  When no threshold is strictly below
the price, the initial value 1 is returned. -/
def computeRestoreValuesNewLength (T : ℤ) (price : ℚ) : ℤ :=
  match findFirstBelow price thresholdValues.reverse 0 with
  | some i => (T * (10 - (i : ℤ))).tdiv 10
  | none => 1

/-- `ImprovedVirtualLiquidityPool.shrink_restore_values`: raises when
`new_length < 1`; pads with zeros when `new_length ≥ len(restore_values)`;
otherwise keeps the first `new_length` slots and redistributes the dropped
tail's sum evenly over them. -/
def ImprovedPool.shrinkRestoreValues (p : ImprovedPool) (newLength : ℤ) :
    Option ImprovedPool :=
  if newLength < 1 then none
  else if p.restoreValues.length ≤ newLength.toNat then
    some
      { p with
        restoreValues :=
          p.restoreValues ++ List.replicate (newLength.toNat - p.restoreValues.length) 0 }
  else
    some
      { p with
        restoreValues :=
          (p.restoreValues.take newLength.toNat).map
            (fun v => v + (p.restoreValues.drop newLength.toNat).sum / (newLength.toNat : ℚ)) }

/-- `ImprovedVirtualLiquidityPool.update_delta`: adds the variation to delta
and spreads it evenly over the window (`ZeroDivisionError` on an empty
window). -/
def ImprovedPool.updateDelta (p : ImprovedPool) (v : ℚ) : Option ImprovedPool :=
  if p.restoreValues.length = 0 then none
  else
    some { p with
           delta := p.delta + v,
           restoreValues := p.restoreValues.map (fun w => w + v / (p.restoreValues.length : ℚ)) }

/-- `ImprovedVirtualLiquidityPool.restore_delta`: recompute the target window
length, shrink, consume the first slot from delta and circularly shift the
window left with a zero appended. -/
def ImprovedPool.restoreDelta (p : ImprovedPool) : Option ImprovedPool :=
  match p.shrinkRestoreValues (computeRestoreValuesNewLength p.poolRecoveryPeriod p.stablecoinPrice) with
  | none => none
  | some p1 =>
    match p1.restoreValues with
    | [] => none
    | v0 :: rest =>
      some { p1 with delta := p1.delta - v0, restoreValues := rest ++ [0] }

/-- `ImprovedVirtualLiquidityPool.reset_replenishing_system`: zero delta and
a fresh all-zero window of length `pool_recovery_period`. -/
def ImprovedPool.resetReplenishingSystem (p : ImprovedPool) : ImprovedPool :=
  { p with delta := 0, restoreValues := List.replicate p.poolRecoveryPeriod.toNat 0 }

/-- The bookkeeping invariant of C9: delta equals the total scheduled
correction in the window. -/
def ImprovedPool.DeltaInv (p : ImprovedPool) : Prop :=
  p.delta = p.restoreValues.sum

/-- The two arbitrage directions of `ThreePoolsArbitrageOptimizer`
(any string other than `"Type 1"` is treated as Type 2 by the source). -/
inductive ArbType
  | type1
  | type2
deriving DecidableEq

/-- `ThreePoolsArbitrageOptimizer` state: the two real pools (index 0:
stablecoin vs reference, index 1: collateral vs reference) and the virtual
pool. -/
structure ThreePoolsOptimizer where
  pool0 : LiquidityPool
  pool1 : LiquidityPool
  vpool : VirtualPool
deriving DecidableEq

/-- `ThreePoolsArbitrageOptimizer.get_arbitrage_profit` from
`source/arbitrage_optimizer/three_pools_arbitrage_optimizer.py`:
for positive input, three successive `compute_swap_value` reads along the
three-hop path of the given type, returning `output - input`; `0` otherwise.
The state is threaded through unchanged — each hop is `compute_swap_value`,
which performs no assignment — so the returned optimizer state witnesses
the frame property of C8. -/
def getArbitrageProfit (o : ThreePoolsOptimizer) (t : ArbType) (x : ℚ) :
    Option (ℚ × ThreePoolsOptimizer) :=
  let firstPool := match t with
    | .type1 => o.pool1
    | .type2 => o.pool0
  let secondPool := match t with
    | .type1 => o.pool0
    | .type2 => o.pool1
  if 0 < x then
    match computeSwapValue firstPool.fee x firstPool.qb firstPool.qa with
    | none => none
    | some a =>
      match (match t with
        | .type1 => computeSwapValue o.vpool.fee a o.vpool.qb o.vpool.qa
        | .type2 => computeSwapValue o.vpool.fee a o.vpool.qa o.vpool.qb) with
      | none => none
      | some b =>
        match computeSwapValue secondPool.fee b secondPool.qa secondPool.qb with
        | none => none
        | some c => some (c - x, o)
  else some (0, o)

/-- A balanced, fee-free three-pool configuration used to witness C8. -/
def c8ExampleOptimizer : ThreePoolsOptimizer :=
  { pool0 :=
      { qa := 1000, qb := 1000, fee := 0,
        tokA := { supply := 1000, freeSupply := 0, price := 1 },
        tokB := { supply := 1000, freeSupply := 0, price := 1 } },
    pool1 :=
      { qa := 1000, qb := 1000, fee := 0,
        tokA := { supply := 1000, freeSupply := 0, price := 1 },
        tokB := { supply := 1000, freeSupply := 0, price := 1 } },
    vpool :=
      { base := 1000, collateralPrice := 1, fee := 0, delta := 0,
        qa := 1000, qb := 1000,
        tokA := { supply := 1000, freeSupply := 0, price := 1 },
        tokB := { supply := 1000, freeSupply := 0, price := 1 } } }

lemma cpfApply_eq_some {x r s v : ℚ} :
    cpfApply x r s = some v ↔ 0 < x ∧ 0 < r ∧ 0 < s ∧ v = s * x / (r + x) := by
  unfold cpfApply
  split_ifs with h1 h2 h3
  · simp; intro h; exact absurd h h1.not_lt
  · simp; intro _ h; exact absurd h h2.not_lt
  · simp; intro _ _ h; exact absurd h h3.not_lt
  · push_neg at h1 h2 h3
    simp [h1, h2, h3, eq_comm]

lemma cpfInverseApply_eq_some {q r s v : ℚ} :
    cpfInverseApply q r s = some v ↔
      0 < q ∧ 0 < r ∧ 0 < s ∧ q < s ∧ v = r * q / (s - q) := by
  unfold cpfInverseApply
  split_ifs with h1 h2 h3 h4
  · simp; intro h; exact absurd h h1.not_lt
  · simp; intro _ h; exact absurd h h2.not_lt
  · simp; intro _ _ h; exact absurd h h3.not_lt
  · simp; intro _ _ _ h; exact absurd h h4.not_lt
  · push_neg at h1 h2 h3 h4
    simp [h1, h2, h3, h4, eq_comm]

lemma pydiv_eq_some {x y v : ℚ} :
    pydiv x y = some v ↔ y ≠ 0 ∧ v = x / y := by
  unfold pydiv
  split_ifs with h
  · simp [h]
  · simp [h, eq_comm]

/-- **C2.** `apply` followed by `inverse_apply` under the same reserves
round-trips exactly: for every strictly positive `(x, r_in, r_out)` the
forward output `q = apply x r_in r_out` is accepted by `inverse_apply`
(in particular `q < r_out`) and `inverse_apply q r_in r_out` returns `x`. -/
theorem cpf_apply_inverse_roundtrip (x rin rout : ℚ)
    (hx : 0 < x) (hrin : 0 < rin) (hrout : 0 < rout) :
    ∃ q, cpfApply x rin rout = some q ∧ cpfInverseApply q rin rout = some x := by
  refine ⟨rout * x / (rin + x), cpfApply_eq_some.mpr ⟨hx, hrin, hrout, rfl⟩, ?_⟩
  have hsum : 0 < rin + x := by linarith
  have hq : 0 < rout * x / (rin + x) := by positivity
  have hlt : rout * x / (rin + x) < rout := by
    rw [div_lt_iff₀ hsum]
    nlinarith
  refine cpfInverseApply_eq_some.mpr ⟨hq, hrin, hrout, hlt, ?_⟩
  have hd : rout - rout * x / (rin + x) = rout * rin / (rin + x) := by
    field_simp
    ring
  rw [hd]
  rw [eq_comm, div_eq_iff (by positivity : rout * rin / (rin + x) ≠ 0)]
  field_simp
  ring

/-- Witness for C2 at `(x, r_in, r_out) = (2, 3, 5)`. -/
theorem cpf_apply_inverse_roundtrip_witness :
    ∃ q, cpfApply 2 3 5 = some q ∧ cpfInverseApply q 3 5 = some 2 :=
  cpf_apply_inverse_roundtrip 2 3 5 (by norm_num) (by norm_num) (by norm_num)

/-- **C5.** `swap` raises a validation error on any token that is neither
`token_a` nor `token_b`, whatever the amount; and `swap(token, 0)` on a
recognized token is a no-op: it returns the other token with output amount 0,
leaving reserves and token supplies (the whole pool state) unchanged. -/
theorem swap_invalid_token_and_zero_noop (p : LiquidityPool) (amount : ℚ) :
    p.swap .other amount = none ∧
    p.swap .a 0 = some (.b, 0, p) ∧
    p.swap .b 0 = some (.a, 0, p) := by
  refine ⟨rfl, ?_, ?_⟩ <;>
    simp [LiquidityPool.swap, swapAux, LiquidityPool.updateSupplies]

/-- **C3.** `ConstantProductFormula.apply` returns
`output_reserve * input_quantity / (input_reserve + input_quantity)` on
strictly positive arguments and raises a validation error as soon as one
argument is non-positive; end to end, on a fee-free pool with reserves
`(5000, 5000)`, swapping 100 units of `token_a` returns output
`5000 * 100 / 5100` and leaves reserves `(5100, 5000 - 5000 * 100 / 5100)`. -/
theorem cpf_apply_value_and_example :
    (∀ x r s : ℚ, 0 < x → 0 < r → 0 < s →
      cpfApply x r s = some (s * x / (r + x))) ∧
    (∀ x r s : ℚ, x ≤ 0 ∨ r ≤ 0 ∨ s ≤ 0 → cpfApply x r s = none) ∧
    (∃ p' : LiquidityPool,
      c3ExamplePool.swap .a 100 = some (.b, 5000 * 100 / 5100, p') ∧
      p'.qa = 5100 ∧ p'.qb = 5000 - 5000 * 100 / 5100) := by
  refine ⟨?_, ?_, ?_⟩
  · intro x r s hx hr hs
    exact cpfApply_eq_some.mpr ⟨hx, hr, hs, rfl⟩
  · intro x r s h
    unfold cpfApply
    split_ifs with h1 h2 h3 <;> try rfl
    push_neg at h1 h2 h3
    rcases h with h | h | h
    · exact absurd h (not_le.mpr h1)
    · exact absurd h (not_le.mpr h2)
    · exact absurd h (not_le.mpr h3)
  · refine ⟨c3ExamplePoolAfter, ?_, by norm_num [c3ExamplePoolAfter], by norm_num [c3ExamplePoolAfter]⟩
    norm_num [c3ExamplePool, c3ExamplePoolAfter, LiquidityPool.swap, swapAux, computeSwapValue,
      cpfApply, LiquidityPool.updateSupplies, Token.setFreeSupply]

lemma computeSwapValue_eq_some {f x r s v : ℚ} :
    computeSwapValue f x r s = some v ↔
      0 < x * (1 - f) ∧ 0 < r ∧ 0 < s ∧ v = s * (x * (1 - f)) / (r + x * (1 - f)) :=
  cpfApply_eq_some

lemma computeInverseSwapValue_eq_some {f q r s v : ℚ} :
    computeInverseSwapValue f q r s = some v ↔
      0 < q ∧ 0 < r ∧ 0 < s ∧ q < s ∧ 1 - f ≠ 0 ∧ v = r * q / (s - q) / (1 - f) := by
  unfold computeInverseSwapValue
  cases hc : cpfInverseApply q r s with
  | none =>
    constructor
    · intro h; cases h
    · rintro ⟨h1, h2, h3, h4, _, _⟩
      have hsome := cpfInverseApply_eq_some.mpr ⟨h1, h2, h3, h4, rfl⟩
      rw [hc] at hsome
      cases hsome
  | some inv =>
    rcases cpfInverseApply_eq_some.mp hc with ⟨h1, h2, h3, h4, hv⟩
    subst hv
    rw [pydiv_eq_some]
    constructor
    · rintro ⟨hf, rfl⟩; exact ⟨h1, h2, h3, h4, hf, rfl⟩
    · rintro ⟨_, _, _, _, hf, rfl⟩; exact ⟨hf, rfl⟩

lemma swapAux_eq_some {f qa qb : ℚ} {isA : Bool} {amt o qa' qb' : ℚ}
    (h : swapAux f qa qb isA amt = some (o, qa', qb')) :
    (amt = 0 ∧ o = 0 ∧ qa' = qa ∧ qb' = qb) ∨
    (0 < amt ∧ 0 < amt * (1 - f) ∧ 0 < qa ∧ 0 < qb ∧
      (qa' = qa + amt ∧ qb' = qb - qb * (amt * (1 - f)) / (qa + amt * (1 - f)) ∨
       qa' = qa - qa * (amt * (1 - f)) / (qb + amt * (1 - f)) ∧ qb' = qb + amt)) ∨
    (amt < 0 ∧ 0 < qa ∧ 0 < qb ∧ 1 - f ≠ 0 ∧
      (-amt < qa ∧ qa' = qa - -amt ∧ qb' = qb + qb * -amt / (qa - -amt) / (1 - f) ∨
       -amt < qb ∧ qa' = qa + qa * -amt / (qb - -amt) / (1 - f) ∧ qb' = qb - -amt)) := by
  unfold swapAux at h
  rcases lt_trichotomy amt 0 with hneg | hzero | hpos
  · rw [if_neg (by linarith), if_pos hneg] at h
    cases isA
    · rw [if_neg (by decide)] at h
      cases hc : computeInverseSwapValue f (-amt) qa qb with
      | none => rw [hc] at h; cases h
      | some v =>
        rw [hc] at h
        dsimp only at h
        rcases computeInverseSwapValue_eq_some.mp hc with ⟨hq, hqa, hqb, hlt, hf, hv⟩
        split_ifs at h with hcond
        simp only [Option.some.injEq, Prod.mk.injEq] at h
        obtain ⟨rfl, rfl, rfl⟩ := h
        exact Or.inr (Or.inr ⟨hneg, hqa, hqb, hf, Or.inr ⟨hlt, by rw [hv], rfl⟩⟩)
    · rw [if_pos (by decide)] at h
      cases hc : computeInverseSwapValue f (-amt) qb qa with
      | none => rw [hc] at h; cases h
      | some v =>
        rw [hc] at h
        dsimp only at h
        rcases computeInverseSwapValue_eq_some.mp hc with ⟨hq, hqb, hqa, hlt, hf, hv⟩
        split_ifs at h with hcond
        simp only [Option.some.injEq, Prod.mk.injEq] at h
        obtain ⟨rfl, rfl, rfl⟩ := h
        exact Or.inr (Or.inr ⟨hneg, hqa, hqb, hf, Or.inl ⟨hlt, rfl, by rw [hv]⟩⟩)
  · subst hzero
    rw [if_neg (by norm_num), if_neg (by norm_num)] at h
    simp only [Option.some.injEq, Prod.mk.injEq] at h
    obtain ⟨rfl, rfl, rfl⟩ := h
    exact Or.inl ⟨rfl, rfl, rfl, rfl⟩
  · rw [if_pos hpos] at h
    cases isA
    · rw [if_neg (by decide)] at h
      cases hc : computeSwapValue f amt qb qa with
      | none => rw [hc] at h; cases h
      | some v =>
        rw [hc] at h
        dsimp only at h
        rcases computeSwapValue_eq_some.mp hc with ⟨he, hqb, hqa, hv⟩
        split_ifs at h with hcond
        simp only [Option.some.injEq, Prod.mk.injEq] at h
        obtain ⟨rfl, rfl, rfl⟩ := h
        exact Or.inr (Or.inl ⟨hpos, he, hqa, hqb, Or.inr ⟨by rw [hv], rfl⟩⟩)
    · rw [if_pos (by decide)] at h
      cases hc : computeSwapValue f amt qa qb with
      | none => rw [hc] at h; cases h
      | some v =>
        rw [hc] at h
        dsimp only at h
        rcases computeSwapValue_eq_some.mp hc with ⟨he, hqa, hqb, hv⟩
        split_ifs at h with hcond
        simp only [Option.some.injEq, Prod.mk.injEq] at h
        obtain ⟨rfl, rfl, rfl⟩ := h
        exact Or.inr (Or.inl ⟨hpos, he, hqa, hqb, Or.inl ⟨rfl, by rw [hv]⟩⟩)

lemma swapAux_amt_zero {f qa qb : ℚ} {isA : Bool} :
    swapAux f qa qb isA 0 = some (0, qa, qb) := by
  unfold swapAux
  norm_num

lemma swapAux_product_fee0 {qa qb : ℚ} {isA : Bool} {amt o qa' qb' : ℚ}
    (h : swapAux 0 qa qb isA amt = some (o, qa', qb')) : qa' * qb' = qa * qb := by
  rcases swapAux_eq_some h with ⟨_, _, rfl, rfl⟩ | ⟨hpos, he, hqa, hqb, hc⟩ |
    ⟨hneg, hqa, hqb, _, hc⟩
  · rfl
  · rcases hc with ⟨rfl, rfl⟩ | ⟨rfl, rfl⟩
    · have hd : qa + amt * (1 - 0) ≠ 0 := by positivity
      field_simp
      ring
    · have hd : qb + amt * (1 - 0) ≠ 0 := by positivity
      field_simp
      ring
  · rcases hc with ⟨hlt, rfl, rfl⟩ | ⟨hlt, rfl, rfl⟩
    · have hd : qa - -amt ≠ 0 := by
        have h0 : 0 < qa - -amt := by linarith
        exact h0.ne'
      have hd2 : qa + amt ≠ 0 := by
        have h0 : 0 < qa + amt := by linarith
        exact h0.ne'
      field_simp
      ring
    · have hd : qb - -amt ≠ 0 := by
        have h0 : 0 < qb - -amt := by linarith
        exact h0.ne'
      have hd2 : qb + amt ≠ 0 := by
        have h0 : 0 < qb + amt := by linarith
        exact h0.ne'
      field_simp
      ring

lemma swapAux_product_lt {f qa qb : ℚ} {isA : Bool} {amt o qa' qb' : ℚ}
    (hf0 : 0 < f) (hf1 : f < 1) (hamt : amt ≠ 0)
    (h : swapAux f qa qb isA amt = some (o, qa', qb')) : qa * qb < qa' * qb' := by
  rcases swapAux_eq_some h with ⟨rfl, _, _, _⟩ | ⟨hpos, he, hqa, hqb, hc⟩ |
    ⟨hneg, hqa, hqb, hf, hc⟩
  · exact absurd rfl hamt
  · have h1f : 0 < 1 - f := by linarith
    rcases hc with ⟨rfl, rfl⟩ | ⟨rfl, rfl⟩
    · have hde : 0 < qa + amt * (1 - f) := by linarith
      have hkey : (qa + amt) * (qb - qb * (amt * (1 - f)) / (qa + amt * (1 - f))) - qa * qb
          = qb * qa * (amt * f) / (qa + amt * (1 - f)) := by
        field_simp
        ring
      have hlt : 0 < qb * qa * (amt * f) / (qa + amt * (1 - f)) := by
        apply div_pos _ hde
        have h1 : 0 < qb * qa := mul_pos hqb hqa
        have h2 : 0 < amt * f := mul_pos hpos hf0
        exact mul_pos h1 h2
      linarith
    · have hde : 0 < qb + amt * (1 - f) := by linarith
      have hkey : (qa - qa * (amt * (1 - f)) / (qb + amt * (1 - f))) * (qb + amt) - qa * qb
          = qa * qb * (amt * f) / (qb + amt * (1 - f)) := by
        field_simp
        ring
      have hlt : 0 < qa * qb * (amt * f) / (qb + amt * (1 - f)) := by
        apply div_pos _ hde
        exact mul_pos (mul_pos hqa hqb) (mul_pos hpos hf0)
      linarith
  · have h1f : 0 < 1 - f := by linarith
    rcases hc with ⟨hlt, rfl, rfl⟩ | ⟨hlt, rfl, rfl⟩
    · have hda : 0 < qa - -amt := by linarith
      have hu : (qa - -amt) * (qb * -amt / (qa - -amt) / (1 - f)) = qb * -amt / (1 - f) := by
        rw [div_div, ← mul_div_assoc, mul_div_mul_left _ _ hda.ne']
      have hkey : (qa - -amt) * (qb + qb * -amt / (qa - -amt) / (1 - f)) - qa * qb
          = qb * -amt * f / (1 - f) := by
        rw [mul_add, hu]
        field_simp
        ring
      have hlt2 : 0 < qb * -amt * f / (1 - f) := by
        apply div_pos _ h1f
        exact mul_pos (mul_pos hqb (by linarith)) hf0
      linarith
    · have hdb : 0 < qb - -amt := by linarith
      have hu : (qb - -amt) * (qa * -amt / (qb - -amt) / (1 - f)) = qa * -amt / (1 - f) := by
        rw [div_div, ← mul_div_assoc, mul_div_mul_left _ _ hdb.ne']
      have hkey : (qa + qa * -amt / (qb - -amt) / (1 - f)) * (qb - -amt) - qa * qb
          = qa * -amt * f / (1 - f) := by
        rw [add_mul, mul_comm (qa * -amt / (qb - -amt) / (1 - f)) (qb - -amt), hu]
        field_simp
        ring
      have hlt2 : 0 < qa * -amt * f / (1 - f) := by
        apply div_pos _ h1f
        exact mul_pos (mul_pos hqa (by linarith)) hf0
      linarith

lemma updateSupplies_state {p q : LiquidityPool} {b : Bool} {amt o : ℚ}
    (h : LiquidityPool.updateSupplies p b amt o = some q) :
    q.qa = p.qa ∧ q.qb = p.qb ∧ q.fee = p.fee := by
  unfold LiquidityPool.updateSupplies at h
  split_ifs at h with h1 h2
  · cases h; exact ⟨rfl, rfl, rfl⟩
  · cases hta : p.tokA.setFreeSupply (p.tokA.freeSupply - amt) with
    | none => rw [hta] at h; cases h
    | some ta =>
      rw [hta] at h
      cases htb : p.tokB.setFreeSupply (p.tokB.freeSupply + o * (amt / |amt|)) with
      | none => rw [htb] at h; cases h
      | some tb =>
        rw [htb] at h
        cases h
        exact ⟨rfl, rfl, rfl⟩
  · cases htb : p.tokB.setFreeSupply (p.tokB.freeSupply - amt) with
    | none => rw [htb] at h; cases h
    | some tb =>
      rw [htb] at h
      cases hta : p.tokA.setFreeSupply (p.tokA.freeSupply + o * (amt / |amt|)) with
      | none => rw [hta] at h; cases h
      | some ta =>
        rw [hta] at h
        cases h
        exact ⟨rfl, rfl, rfl⟩

lemma swap_eq_some {p : LiquidityPool} {t : TokenRef} {amt : ℚ} {ot : TokenRef}
    {oamt : ℚ} {q : LiquidityPool} (h : p.swap t amt = some (ot, oamt, q)) :
    q.fee = p.fee ∧ ∃ isA : Bool, swapAux p.fee p.qa p.qb isA amt = some (oamt, q.qa, q.qb) := by
  unfold LiquidityPool.swap at h
  cases t with
  | other => cases h
  | a =>
    cases hs : swapAux p.fee p.qa p.qb true amt with
    | none => rw [hs] at h; cases h
    | some r =>
      obtain ⟨o, qa', qb'⟩ := r
      rw [hs] at h
      dsimp only at h
      cases hu : LiquidityPool.updateSupplies { p with qa := qa', qb := qb' } true amt o with
      | none => rw [hu] at h; cases h
      | some p' =>
        rw [hu] at h
        cases h
        obtain ⟨hqa, hqb, hfee⟩ := updateSupplies_state hu
        exact ⟨hfee, true, by rw [hqa, hqb]; exact hs⟩
  | b =>
    cases hs : swapAux p.fee p.qa p.qb false amt with
    | none => rw [hs] at h; cases h
    | some r =>
      obtain ⟨o, qa', qb'⟩ := r
      rw [hs] at h
      dsimp only at h
      cases hu : LiquidityPool.updateSupplies { p with qa := qa', qb := qb' } false amt o with
      | none => rw [hu] at h; cases h
      | some p' =>
        rw [hu] at h
        cases h
        obtain ⟨hqa, hqb, hfee⟩ := updateSupplies_state hu
        exact ⟨hfee, false, by rw [hqa, hqb]; exact hs⟩

lemma swapSeq_product_fee0 :
    ∀ (l : List (TokenRef × ℚ)) (p q : LiquidityPool), p.fee = 0 →
      swapSeq p l = some q → q.qa * q.qb = p.qa * p.qb := by
  intro l
  induction l with
  | nil => intro p q _ h; cases h; rfl
  | cons hd tl ih =>
    intro p q hf h
    obtain ⟨t, amt⟩ := hd
    unfold swapSeq at h
    cases hs : p.swap t amt with
    | none => rw [hs] at h; cases h
    | some r =>
      obtain ⟨ot, oamt, p'⟩ := r
      rw [hs] at h
      obtain ⟨hfee, isA, haux⟩ := swap_eq_some hs
      rw [hf] at haux
      have h1 := swapAux_product_fee0 haux
      have h2 := ih p' q (by rw [hfee, hf]) h
      rw [h2, h1]

lemma swapSeq_product_mono :
    ∀ (l : List (TokenRef × ℚ)) (p q : LiquidityPool), 0 < p.fee → p.fee < 1 →
      swapSeq p l = some q → p.qa * p.qb ≤ q.qa * q.qb := by
  intro l
  induction l with
  | nil => intro p q _ _ h; cases h; exact le_refl _
  | cons hd tl ih =>
    intro p q hf0 hf1 h
    obtain ⟨t, amt⟩ := hd
    unfold swapSeq at h
    cases hs : p.swap t amt with
    | none => rw [hs] at h; cases h
    | some r =>
      obtain ⟨ot, oamt, p'⟩ := r
      rw [hs] at h
      obtain ⟨hfee, isA, haux⟩ := swap_eq_some hs
      have hstep : p.qa * p.qb ≤ p'.qa * p'.qb := by
        rcases eq_or_ne amt 0 with rfl | hne
        · rw [swapAux_amt_zero] at haux
          simp only [Option.some.injEq, Prod.mk.injEq] at haux
          obtain ⟨-, hqa', hqb'⟩ := haux
          rw [← hqa', ← hqb']
        · exact le_of_lt (swapAux_product_lt hf0 hf1 hne haux)
      have htl := ih p' q (by rw [hfee]; exact hf0) (by rw [hfee]; exact hf1) h
      exact le_trans hstep htl

/-- **C1.** Constant-product behaviour of `swap` over arbitrary sequences of
valid (non-raising) signed swaps of either token: with `fee = 0` the product
`quantity_token_a * quantity_token_b` is exactly invariant across any
sequence; with `0 < fee < 1` the product never decreases across a sequence
and strictly increases on every single swap with a nonzero amount. -/
theorem swap_product_invariant_and_monotone :
    (∀ (p : LiquidityPool) (l : List (TokenRef × ℚ)) (q : LiquidityPool),
        swapSeq p l = some q →
        (p.fee = 0 → q.qa * q.qb = p.qa * p.qb) ∧
        (0 < p.fee → p.fee < 1 → p.qa * p.qb ≤ q.qa * q.qb)) ∧
    (∀ (p : LiquidityPool) (t : TokenRef) (amt : ℚ) (ot : TokenRef) (oamt : ℚ)
        (q : LiquidityPool), 0 < p.fee → p.fee < 1 → amt ≠ 0 →
        p.swap t amt = some (ot, oamt, q) → p.qa * p.qb < q.qa * q.qb) := by
  constructor
  · intro p l q h
    exact ⟨fun hf => swapSeq_product_fee0 l p q hf h,
      fun hf0 hf1 => swapSeq_product_mono l p q hf0 hf1 h⟩
  · intro p t amt ot oamt q hf0 hf1 hne h
    obtain ⟨_, isA, haux⟩ := swap_eq_some h
    exact swapAux_product_lt hf0 hf1 hne haux

/-- Witness for C1: a fee-free swap of 100 units of `token_a` on reserves
`(1000, 1000)` keeps the product exactly, and the same swap with fee 1%
strictly increases it. -/
theorem swap_product_invariant_and_monotone_witness :
    (swapSeq c1FeeFreePool [(TokenRef.a, 100)] = some c1FeeFreePoolAfter ∧
      c1FeeFreePoolAfter.qa * c1FeeFreePoolAfter.qb = c1FeeFreePool.qa * c1FeeFreePool.qb) ∧
    (c1FeePool.swap TokenRef.a 100 = some (TokenRef.b, 99000 / 1099, c1FeePoolAfter) ∧
      c1FeePool.qa * c1FeePool.qb < c1FeePoolAfter.qa * c1FeePoolAfter.qb) := by
  have h1 : swapSeq c1FeeFreePool [(TokenRef.a, 100)] = some c1FeeFreePoolAfter := by
    norm_num [swapSeq, c1FeeFreePool, c1FeeFreePoolAfter, LiquidityPool.swap, swapAux,
      computeSwapValue, cpfApply, LiquidityPool.updateSupplies, Token.setFreeSupply]
  have h2 : c1FeePool.swap TokenRef.a 100 = some (TokenRef.b, 99000 / 1099, c1FeePoolAfter) := by
    norm_num [c1FeePool, c1FeePoolAfter, LiquidityPool.swap, swapAux,
      computeSwapValue, cpfApply, LiquidityPool.updateSupplies, Token.setFreeSupply]
  refine ⟨⟨h1, ?_⟩, ⟨h2, ?_⟩⟩
  · exact (swap_product_invariant_and_monotone.1 c1FeeFreePool [(TokenRef.a, 100)]
      c1FeeFreePoolAfter h1).1 rfl
  · exact swap_product_invariant_and_monotone.2 c1FeePool TokenRef.a 100 TokenRef.b
      (99000 / 1099) c1FeePoolAfter (by norm_num [c1FeePool]) (by norm_num [c1FeePool])
      (by norm_num) h2

/-- Witness for C3: the closed formula at `(2, 3, 5)` and a rejected
non-positive input. -/
theorem cpf_apply_value_and_example_witness :
    cpfApply 2 3 5 = some (5 * 2 / (3 + 2)) ∧ cpfApply (-1) 3 5 = none :=
  ⟨cpf_apply_value_and_example.1 2 3 5 (by norm_num) (by norm_num) (by norm_num),
   cpf_apply_value_and_example.2.1 (-1) 3 5 (Or.inl (by norm_num))⟩

lemma vUpdateSupplies_state {p q : VirtualPool} {b : Bool} {amt o : ℚ}
    (h : VirtualPool.updateSupplies p b amt o = some q) :
    q.delta = p.delta ∧ q.base = p.base ∧ q.collateralPrice = p.collateralPrice ∧
    q.fee = p.fee ∧ q.qa = p.qa ∧ q.qb = p.qb := by
  unfold VirtualPool.updateSupplies at h
  cases b
  · cases htb : p.tokB.burn amt with
    | none => rw [htb] at h; cases h
    | some tb =>
      rw [htb] at h
      dsimp only at h
      cases hta : p.tokA.mint o with
      | none => rw [hta] at h; cases h
      | some ta =>
        rw [hta] at h
        dsimp only at h
        cases h
        exact ⟨rfl, rfl, rfl, rfl, rfl, rfl⟩
  · cases hta : p.tokA.burn amt with
    | none => rw [hta] at h; cases h
    | some ta =>
      rw [hta] at h
      dsimp only at h
      cases htb : p.tokB.mint o with
      | none => rw [htb] at h; cases h
      | some tb =>
        rw [htb] at h
        dsimp only at h
        cases h
        exact ⟨rfl, rfl, rfl, rfl, rfl, rfl⟩

lemma vBaseSwap_state {p q : VirtualPool} {t : TokenRef} {amt : ℚ} {ot : TokenRef} {oamt : ℚ}
    (h : p.baseSwap t amt = some (ot, oamt, q)) :
    q.delta = p.delta ∧ q.base = p.base ∧ q.collateralPrice = p.collateralPrice := by
  unfold VirtualPool.baseSwap at h
  cases t with
  | other => cases h
  | a =>
    cases hs : swapAux p.fee p.qa p.qb true amt with
    | none => rw [hs] at h; cases h
    | some r =>
      obtain ⟨o, qa', qb'⟩ := r
      rw [hs] at h
      dsimp only at h
      cases hu : VirtualPool.updateSupplies { p with qa := qa', qb := qb' } true amt o with
      | none => rw [hu] at h; cases h
      | some p' =>
        rw [hu] at h
        cases h
        obtain ⟨hd, hb, hc, -, -, -⟩ := vUpdateSupplies_state hu
        exact ⟨hd, hb, hc⟩
  | b =>
    cases hs : swapAux p.fee p.qa p.qb false amt with
    | none => rw [hs] at h; cases h
    | some r =>
      obtain ⟨o, qa', qb'⟩ := r
      rw [hs] at h
      dsimp only at h
      cases hu : VirtualPool.updateSupplies { p with qa := qa', qb := qb' } false amt o with
      | none => rw [hu] at h; cases h
      | some p' =>
        rw [hu] at h
        cases h
        obtain ⟨hd, hb, hc, -, -, -⟩ := vUpdateSupplies_state hu
        exact ⟨hd, hb, hc⟩

/-- **C4.** `VirtualLiquidityPool.swap` (for any `update_delta` policy `upd`
that adds its variation to delta, as both concrete subclasses do) first
recomputes `quantity_token_a = stablecoin_base_quantity + delta` and
`quantity_token_b = stablecoin_base_quantity / collateral_price`, then
delegates to the base `LiquidityPool.swap`, and afterwards updates delta by
`+amount` when the input token is the stablecoin (`token_a`) and by minus the
returned output amount when it is the collateral (`token_b`). -/
theorem virtual_swap_recomputes_and_updates_delta
    (upd : VirtualPool → ℚ → VirtualPool) (p : VirtualPool) (t : TokenRef)
    (amount : ℚ) (ot : TokenRef) (oamt : ℚ) (q : VirtualPool)
    (hupd : ∀ s v, (upd s v).delta = s.delta + v)
    (h : VirtualPool.swapWith upd p t amount = some (ot, oamt, q)) :
    p.collateralPrice ≠ 0 ∧
    ∃ mid, VirtualPool.baseSwap
        { p with qa := p.base + p.delta, qb := p.base / p.collateralPrice } t amount
        = some (ot, oamt, mid) ∧
      mid.delta = p.delta ∧
      q = upd mid (if t = TokenRef.a then amount else -oamt) ∧
      q.delta = p.delta + (if t = TokenRef.a then amount else -oamt) := by
  unfold VirtualPool.swapWith at h
  cases hdiv : pydiv p.base p.collateralPrice with
  | none => rw [hdiv] at h; cases h
  | some qbNew =>
    rw [hdiv] at h
    dsimp only at h
    obtain ⟨hne, rfl⟩ := pydiv_eq_some.mp hdiv
    cases hb : VirtualPool.baseSwap
        { p with qa := p.base + p.delta, qb := p.base / p.collateralPrice } t amount with
    | none => rw [hb] at h; cases h
    | some r =>
      obtain ⟨ot', oamt', p2⟩ := r
      rw [hb] at h
      dsimp only at h
      simp only [Option.some.injEq, Prod.mk.injEq] at h
      obtain ⟨rfl, rfl, rfl⟩ := h
      obtain ⟨hd2, -, -⟩ := vBaseSwap_state hb
      have hdmid : p2.delta = p.delta := hd2
      cases t with
      | other => cases hb
      | a =>
        refine ⟨hne, p2, rfl, hdmid, ?_, ?_⟩
        · simp
        · simp [hupd, hdmid]
      | b =>
        refine ⟨hne, p2, rfl, hdmid, ?_, ?_⟩
        · simp
        · simp [hupd, hdmid]

/-- Witness for C4: a concrete fee-free virtual swap of 10 stablecoins. -/
theorem virtual_swap_recomputes_and_updates_delta_witness :
    c4ExamplePool.collateralPrice ≠ 0 ∧
    ∃ mid, VirtualPool.baseSwap
        { c4ExamplePool with qa := c4ExamplePool.base + c4ExamplePool.delta,
                             qb := c4ExamplePool.base / c4ExamplePool.collateralPrice }
        TokenRef.a 10 = some (TokenRef.b, 100 / 11, mid) ∧
      mid.delta = c4ExamplePool.delta ∧
      c4ExamplePoolAfter = simpleUpdateDelta mid
        (if TokenRef.a = TokenRef.a then 10 else -(100 / 11)) ∧
      c4ExamplePoolAfter.delta = c4ExamplePool.delta +
        (if TokenRef.a = TokenRef.a then 10 else -(100 / 11)) := by
  apply virtual_swap_recomputes_and_updates_delta simpleUpdateDelta c4ExamplePool
    TokenRef.a 10 TokenRef.b (100 / 11) c4ExamplePoolAfter (fun s v => rfl)
  norm_num [VirtualPool.swapWith, VirtualPool.baseSwap, VirtualPool.updateSupplies,
    pydiv, swapAux, computeSwapValue, cpfApply, Token.burn, Token.mint,
    simpleUpdateDelta, c4ExamplePool, c4ExamplePoolAfter]

lemma Token.burn_nonpos {t : Token} {amount : ℚ} (h : amount ≤ 0) :
    t.burn amount = none := by
  unfold Token.burn
  rw [if_pos h]

lemma vUpdateSupplies_nonpos {p : VirtualPool} {b : Bool} {amount o : ℚ}
    (h : amount ≤ 0) : VirtualPool.updateSupplies p b amount o = none := by
  unfold VirtualPool.updateSupplies
  cases b <;> simp [Token.burn_nonpos h]

lemma vBaseSwap_nonpos {p : VirtualPool} {amount : ℚ} (h : amount ≤ 0) :
    p.baseSwap .a amount = none ∧ p.baseSwap .b amount = none := by
  constructor
  · unfold VirtualPool.baseSwap
    cases hs : swapAux p.fee p.qa p.qb true amount with
    | none => rfl
    | some r =>
      obtain ⟨o, qa', qb'⟩ := r
      dsimp only
      rw [vUpdateSupplies_nonpos h]
  · unfold VirtualPool.baseSwap
    cases hs : swapAux p.fee p.qa p.qb false amount with
    | none => rfl
    | some r =>
      obtain ⟨o, qa', qb'⟩ := r
      dsimp only
      rw [vUpdateSupplies_nonpos h]

/-- **C10.** On a `VirtualLiquidityPool` (any `update_delta` policy), a swap
of a recognized token with `amount ≤ 0` always raises a validation error and
never completes as a no-op: the overridden `update_supplies` unconditionally
burns the input amount and `burn` requires a strictly positive amount.  The
base `LiquidityPool`, in contrast, treats a zero amount as a no-op. -/
theorem virtual_swap_nonpositive_fails
    (upd : VirtualPool → ℚ → VirtualPool) (p : VirtualPool) (amount : ℚ)
    (h : amount ≤ 0) :
    VirtualPool.swapWith upd p .a amount = none ∧
    VirtualPool.swapWith upd p .b amount = none ∧
    ∀ bp : LiquidityPool, bp.swap .a 0 = some (.b, 0, bp) := by
  refine ⟨?_, ?_, ?_⟩
  · unfold VirtualPool.swapWith
    cases hdiv : pydiv p.base p.collateralPrice with
    | none => rfl
    | some qbNew =>
      dsimp only
      rw [(vBaseSwap_nonpos h).1]
  · unfold VirtualPool.swapWith
    cases hdiv : pydiv p.base p.collateralPrice with
    | none => rfl
    | some qbNew =>
      dsimp only
      rw [(vBaseSwap_nonpos h).2]
  · intro bp
    simp [LiquidityPool.swap, swapAux, LiquidityPool.updateSupplies]

/-- Witness for C10 at `amount = 0` on a concrete virtual pool, contrasted
with the base pool's zero no-op on a concrete real pool. -/
theorem virtual_swap_nonpositive_fails_witness :
    VirtualPool.swapWith simpleUpdateDelta c4ExamplePool .a 0 = none ∧
    VirtualPool.swapWith simpleUpdateDelta c4ExamplePool .b 0 = none ∧
    c1FeeFreePool.swap .a 0 = some (.b, 0, c1FeeFreePool) := by
  obtain ⟨h1, h2, h3⟩ :=
    virtual_swap_nonpositive_fails simpleUpdateDelta c4ExamplePool 0 (by norm_num)
  exact ⟨h1, h2, h3 c1FeeFreePool⟩

lemma list_sum_map_add_const (l : List ℚ) (c : ℚ) :
    (l.map (fun v => v + c)).sum = l.sum + l.length * c := by
  induction l with
  | nil => simp
  | cons x xs ih =>
    simp only [List.map_cons, List.sum_cons, List.length_cons, ih]
    push_cast
    ring

lemma shrinkRestoreValues_eq_some {p q : ImprovedPool} {k : ℤ}
    (h : p.shrinkRestoreValues k = some q) :
    1 ≤ k ∧ q.delta = p.delta ∧ q.poolRecoveryPeriod = p.poolRecoveryPeriod ∧
    q.stablecoinPrice = p.stablecoinPrice ∧
    q.restoreValues.sum = p.restoreValues.sum ∧
    (q.restoreValues.length : ℤ) = k := by
  unfold ImprovedPool.shrinkRestoreValues at h
  split_ifs at h with h1 h2
  · -- pad with zeros
    push_neg at h1
    cases h
    refine ⟨h1, rfl, rfl, rfl, ?_, ?_⟩
    · simp [List.sum_append, List.sum_replicate]
    · simp only [List.length_append, List.length_replicate]
      rw [Nat.add_sub_cancel' h2]
      exact Int.toNat_of_nonneg (by linarith)
  · -- shrink and redistribute
    push_neg at h1 h2
    cases h
    have hkpos : 0 < k.toNat := by omega
    have hlen : (p.restoreValues.take k.toNat).length = k.toNat :=
      List.length_take_of_le (le_of_lt h2)
    refine ⟨h1, rfl, rfl, rfl, ?_, ?_⟩
    · rw [list_sum_map_add_const, hlen]
      have hk0 : ((k.toNat : ℕ) : ℚ) ≠ 0 := by
        exact_mod_cast Nat.pos_iff_ne_zero.mp hkpos
      rw [mul_div_cancel₀ _ hk0]
      rw [← List.sum_take_add_sum_drop p.restoreValues k.toNat]
    · simp only [List.length_map, hlen]
      exact Int.toNat_of_nonneg (by linarith)

lemma shrinkRestoreValues_isSome (p : ImprovedPool) (k : ℤ) (hk : 1 ≤ k) :
    ∃ q, p.shrinkRestoreValues k = some q := by
  unfold ImprovedPool.shrinkRestoreValues
  rw [if_neg (not_lt.mpr hk)]
  split_ifs <;> exact ⟨_, rfl⟩

/-- **C6.** For every integer `k ≥ 1`, `shrink_restore_values(k)` succeeds,
produces a `restore_values` window of length exactly `k`, and preserves the
window's sum exactly: a dropped tail is redistributed evenly over the
retained slots, and growth pads with zeros. -/
theorem shrink_restore_values_length_and_sum (p : ImprovedPool) (k : ℤ) (hk : 1 ≤ k) :
    ∃ q, p.shrinkRestoreValues k = some q ∧
      (q.restoreValues.length : ℤ) = k ∧
      q.restoreValues.sum = p.restoreValues.sum := by
  obtain ⟨q, hq⟩ := shrinkRestoreValues_isSome p k hk
  obtain ⟨-, -, -, -, hsum, hlen⟩ := shrinkRestoreValues_eq_some hq
  exact ⟨q, hq, hlen, hsum⟩

/-- Witness for C6: shrinking the window `[1, 2, 3]` to length 2
redistributes the dropped `3` as `1.5` per retained slot. -/
theorem shrink_restore_values_length_and_sum_witness :
    ∃ q, (ImprovedPool.mk 6 [1, 2, 3] 3 1).shrinkRestoreValues 2 = some q ∧
      (q.restoreValues.length : ℤ) = 2 ∧
      q.restoreValues.sum = (ImprovedPool.mk 6 [1, 2, 3] 3 1).restoreValues.sum :=
  shrink_restore_values_length_and_sum (ImprovedPool.mk 6 [1, 2, 3] 3 1) 2 (by norm_num)

/-- **C9.** The invariant `delta = sum(restore_values)` (exact arithmetic)
holds after construction and is preserved by `update_delta` (which adds the
same variation to delta and to the window total), `shrink_restore_values`
(which preserves the window total), `restore_delta` (which removes the
consumed first slot from both) and `reset_replenishing_system` (which zeroes
both). -/
theorem improved_pool_delta_window_invariant :
    (∀ (T : ℤ) (price : ℚ), (ImprovedPool.init T price).DeltaInv) ∧
    (∀ (p q : ImprovedPool) (v : ℚ), p.DeltaInv → p.updateDelta v = some q →
      q.DeltaInv) ∧
    (∀ (p q : ImprovedPool) (k : ℤ), p.DeltaInv → p.shrinkRestoreValues k = some q →
      q.DeltaInv) ∧
    (∀ p q : ImprovedPool, p.DeltaInv → p.restoreDelta = some q → q.DeltaInv) ∧
    (∀ p : ImprovedPool, p.resetReplenishingSystem.DeltaInv) := by
  have hshrink : ∀ (p q : ImprovedPool) (k : ℤ), p.DeltaInv →
      p.shrinkRestoreValues k = some q → q.DeltaInv := by
    intro p q k hp h
    obtain ⟨-, hd, -, -, hsum, -⟩ := shrinkRestoreValues_eq_some h
    unfold ImprovedPool.DeltaInv at *
    rw [hd, hsum]
    exact hp
  refine ⟨?_, ?_, hshrink, ?_, ?_⟩
  · intro T price
    unfold ImprovedPool.DeltaInv ImprovedPool.init
    simp [List.sum_replicate]
  · intro p q v hp h
    unfold ImprovedPool.updateDelta at h
    split_ifs at h with h0
    cases h
    unfold ImprovedPool.DeltaInv at *
    simp only [list_sum_map_add_const]
    have hlen : ((p.restoreValues.length : ℕ) : ℚ) ≠ 0 := by
      exact_mod_cast h0
    rw [mul_div_cancel₀ _ hlen, hp]
  · intro p q hp h
    unfold ImprovedPool.restoreDelta at h
    cases hsh : p.shrinkRestoreValues
        (computeRestoreValuesNewLength p.poolRecoveryPeriod p.stablecoinPrice) with
    | none => rw [hsh] at h; cases h
    | some p1 =>
      rw [hsh] at h
      dsimp only at h
      have hp1 : p1.DeltaInv := hshrink p p1 _ hp hsh
      cases hrv : p1.restoreValues with
      | nil => rw [hrv] at h; cases h
      | cons v0 rest =>
        rw [hrv] at h
        dsimp only at h
        cases h
        unfold ImprovedPool.DeltaInv at *
        rw [hrv] at hp1
        simp only [List.sum_cons] at hp1
        simp [List.sum_append, hp1]
  · intro p
    unfold ImprovedPool.DeltaInv ImprovedPool.resetReplenishingSystem
    simp [List.sum_replicate]

/-- Witness for C9: the invariant holds after construction and is carried
through a concrete `update_delta`, `shrink_restore_values`, `restore_delta`
and `reset_replenishing_system` step. -/
theorem improved_pool_delta_window_invariant_witness :
    (ImprovedPool.init 3 1).DeltaInv ∧
    (ImprovedPool.mk 12 [3, 4, 5] 3 1).DeltaInv ∧
    (ImprovedPool.mk 6 [5/2, 7/2] 3 1).DeltaInv ∧
    (ImprovedPool.mk 5 [2, 3, 0] 3 1).DeltaInv ∧
    (ImprovedPool.mk 6 [1, 2, 3] 3 1).resetReplenishingSystem.DeltaInv := by
  obtain ⟨hinit, hupd, hshr, hres, hrst⟩ := improved_pool_delta_window_invariant
  have hp : (ImprovedPool.mk 6 [1, 2, 3] 3 1).DeltaInv := by
    unfold ImprovedPool.DeltaInv
    norm_num
  refine ⟨hinit 3 1, ?_, ?_, ?_, hrst _⟩
  · refine hupd (ImprovedPool.mk 6 [1, 2, 3] 3 1) _ 6 hp ?_
    norm_num [ImprovedPool.updateDelta]
  · refine hshr (ImprovedPool.mk 6 [1, 2, 3] 3 1) _ 2 hp ?_
    norm_num [ImprovedPool.shrinkRestoreValues, show Int.toNat 2 = 2 from rfl,
      List.take_succ_cons, List.take_zero, List.drop_succ_cons]
  · refine hres (ImprovedPool.mk 6 [1, 2, 3] 3 1) _ hp ?_
    norm_num [ImprovedPool.restoreDelta, ImprovedPool.shrinkRestoreValues,
      computeRestoreValuesNewLength, findFirstBelow, thresholdValues, List.range_succ,
      show Int.tdiv 30 10 = 3 from by decide, show Int.toNat 3 = 3 from rfl,
      List.take_succ_cons, List.take_zero, List.drop_succ_cons]

lemma thresholdValues_reverse_eq :
    thresholdValues.reverse =
      [99/100, 197/200, 49/50, 39/40, 97/100, 193/200, 24/25, 191/200, 19/20] := by
  norm_num [thresholdValues, List.range_succ]

lemma findFirstBelow_none_of {price : ℚ} :
    ∀ (l : List ℚ) (i : ℕ), (∀ v ∈ l, ¬v < price) → findFirstBelow price l i = none := by
  intro l
  induction l with
  | nil => intro i _; rfl
  | cons x xs ih =>
    intro i hall
    unfold findFirstBelow
    rw [if_neg (hall x (by simp))]
    exact ih (i + 1) (fun v hv => hall v (by simp [hv]))

lemma findFirstBelow_bounds {price : ℚ} :
    ∀ (l : List ℚ) (s i : ℕ), findFirstBelow price l s = some i → s ≤ i ∧ i < s + l.length := by
  intro l
  induction l with
  | nil => intro s i h; cases h
  | cons x xs ih =>
    intro s i h
    unfold findFirstBelow at h
    split_ifs at h with hc
    · cases h
      simp
    · obtain ⟨h1, h2⟩ := ih (s + 1) i h
      constructor
      · omega
      · simp only [List.length_cons]
        omega

/-- Counterexample for C7: the code computes `int(round(T*(1 - i*0.1), 5))`,
a truncation, not a rounding, and applies no lower clamp.  At
`T = 5, p = 0.976` (matched threshold 0.975, top-down index `i = 3`) the code
returns 3 while the claim's `round(5 * 0.7) = round(3.5)` clamped to
`[1, 5]` is 4; and at `T = 2, p = 0.951` (index `i = 8`) the code returns 0,
below the claimed lower clamp of 1. -/
theorem compute_restore_values_new_length_counterexample :
    computeRestoreValuesNewLength 5 (976/1000) = 3 ∧
    min (max (round ((5 : ℚ) * (1 - 3 * (1/10)))) 1) 5 = 4 ∧
    computeRestoreValuesNewLength 2 (951/1000) = 0 := by
  refine ⟨?_, ?_, ?_⟩
  · unfold computeRestoreValuesNewLength
    rw [thresholdValues_reverse_eq]
    have hfind : findFirstBelow (976/1000 : ℚ)
        [99/100, 197/200, 49/50, 39/40, 97/100, 193/200, 24/25, 191/200, 19/20] 0 = some 3 := by
      simp only [findFirstBelow]
      rw [if_neg (by norm_num), if_neg (by norm_num), if_neg (by norm_num),
        if_pos (by norm_num)]
    rw [hfind]
    decide
  · have h72 : (5 : ℚ) * (1 - 3 * (1/10)) = 7/2 := by norm_num
    rw [h72]
    have hr : round ((7 : ℚ)/2) = 4 := by
      rw [round_eq]
      norm_num
    rw [hr]
    decide
  · unfold computeRestoreValuesNewLength
    rw [thresholdValues_reverse_eq]
    have hfind : findFirstBelow (951/1000 : ℚ)
        [99/100, 197/200, 49/50, 39/40, 97/100, 193/200, 24/25, 191/200, 19/20] 0 = some 8 := by
      simp only [findFirstBelow]
      rw [if_neg (by norm_num), if_neg (by norm_num), if_neg (by norm_num),
        if_neg (by norm_num), if_neg (by norm_num), if_neg (by norm_num),
        if_neg (by norm_num), if_neg (by norm_num), if_pos (by norm_num)]
    rw [hfind]
    decide

/-- **C7 (amended).** The target window length computed by
`compute_restore_values_new_length` equals the truncation toward zero of
`T * (1 - i*0.1)` — not its rounding — where `i` is the top-down index of the
highest of the nine thresholds `0.99, 0.985, ..., 0.95` strictly below the
last observed stablecoin price; it is 1 when the price is at or below 0.95,
it never exceeds `T`, and no lower clamp is applied (for small `T` the value
0 is possible). -/
theorem compute_restore_values_new_length_amended (T : ℤ) (price : ℚ) (hT : 1 ≤ T) :
    (price ≤ 19/20 → computeRestoreValuesNewLength T price = 1) ∧
    (∀ i : ℕ, i < 9 → 99/100 - (i : ℚ) * (5/1000) < price →
      (∀ j : ℕ, j < i → ¬(99/100 - (j : ℚ) * (5/1000) < price)) →
      computeRestoreValuesNewLength T price = (T * (10 - (i : ℤ))).tdiv 10) ∧
    computeRestoreValuesNewLength T price ≤ T := by
  refine ⟨?_, ?_, ?_⟩
  · intro hp
    unfold computeRestoreValuesNewLength
    rw [findFirstBelow_none_of _ 0 ?_]
    intro v hv
    rw [thresholdValues_reverse_eq] at hv
    fin_cases hv <;> · norm_num; linarith
  · intro i hi hhit hmiss
    unfold computeRestoreValuesNewLength
    rw [thresholdValues_reverse_eq]
    interval_cases i
    · norm_num at hhit
      have hfind : findFirstBelow price
          [99/100, 197/200, 49/50, 39/40, 97/100, 193/200, 24/25, 191/200, 19/20] 0
          = some 0 := by
        simp only [findFirstBelow]
        rw [if_pos (by linarith)]
      rw [hfind]
    · have m0 := hmiss 0 (by norm_num)
      norm_num at hhit m0
      have hfind : findFirstBelow price
          [99/100, 197/200, 49/50, 39/40, 97/100, 193/200, 24/25, 191/200, 19/20] 0
          = some 1 := by
        simp only [findFirstBelow]
        rw [if_neg (by linarith), if_pos (by linarith)]
      rw [hfind]
    · have m0 := hmiss 0 (by norm_num)
      have m1 := hmiss 1 (by norm_num)
      norm_num at hhit m0 m1
      have hfind : findFirstBelow price
          [99/100, 197/200, 49/50, 39/40, 97/100, 193/200, 24/25, 191/200, 19/20] 0
          = some 2 := by
        simp only [findFirstBelow]
        rw [if_neg (by linarith), if_neg (by linarith), if_pos (by linarith)]
      rw [hfind]
    · have m0 := hmiss 0 (by norm_num)
      have m1 := hmiss 1 (by norm_num)
      have m2 := hmiss 2 (by norm_num)
      norm_num at hhit m0 m1 m2
      have hfind : findFirstBelow price
          [99/100, 197/200, 49/50, 39/40, 97/100, 193/200, 24/25, 191/200, 19/20] 0
          = some 3 := by
        simp only [findFirstBelow]
        rw [if_neg (by linarith), if_neg (by linarith), if_neg (by linarith),
          if_pos (by linarith)]
      rw [hfind]
    · have m0 := hmiss 0 (by norm_num)
      have m1 := hmiss 1 (by norm_num)
      have m2 := hmiss 2 (by norm_num)
      have m3 := hmiss 3 (by norm_num)
      norm_num at hhit m0 m1 m2 m3
      have hfind : findFirstBelow price
          [99/100, 197/200, 49/50, 39/40, 97/100, 193/200, 24/25, 191/200, 19/20] 0
          = some 4 := by
        simp only [findFirstBelow]
        rw [if_neg (by linarith), if_neg (by linarith), if_neg (by linarith),
          if_neg (by linarith), if_pos (by linarith)]
      rw [hfind]
    · have m0 := hmiss 0 (by norm_num)
      have m1 := hmiss 1 (by norm_num)
      have m2 := hmiss 2 (by norm_num)
      have m3 := hmiss 3 (by norm_num)
      have m4 := hmiss 4 (by norm_num)
      norm_num at hhit m0 m1 m2 m3 m4
      have hfind : findFirstBelow price
          [99/100, 197/200, 49/50, 39/40, 97/100, 193/200, 24/25, 191/200, 19/20] 0
          = some 5 := by
        simp only [findFirstBelow]
        rw [if_neg (by linarith), if_neg (by linarith), if_neg (by linarith),
          if_neg (by linarith), if_neg (by linarith), if_pos (by linarith)]
      rw [hfind]
    · have m0 := hmiss 0 (by norm_num)
      have m1 := hmiss 1 (by norm_num)
      have m2 := hmiss 2 (by norm_num)
      have m3 := hmiss 3 (by norm_num)
      have m4 := hmiss 4 (by norm_num)
      have m5 := hmiss 5 (by norm_num)
      norm_num at hhit m0 m1 m2 m3 m4 m5
      have hfind : findFirstBelow price
          [99/100, 197/200, 49/50, 39/40, 97/100, 193/200, 24/25, 191/200, 19/20] 0
          = some 6 := by
        simp only [findFirstBelow]
        rw [if_neg (by linarith), if_neg (by linarith), if_neg (by linarith),
          if_neg (by linarith), if_neg (by linarith), if_neg (by linarith),
          if_pos (by linarith)]
      rw [hfind]
    · have m0 := hmiss 0 (by norm_num)
      have m1 := hmiss 1 (by norm_num)
      have m2 := hmiss 2 (by norm_num)
      have m3 := hmiss 3 (by norm_num)
      have m4 := hmiss 4 (by norm_num)
      have m5 := hmiss 5 (by norm_num)
      have m6 := hmiss 6 (by norm_num)
      norm_num at hhit m0 m1 m2 m3 m4 m5 m6
      have hfind : findFirstBelow price
          [99/100, 197/200, 49/50, 39/40, 97/100, 193/200, 24/25, 191/200, 19/20] 0
          = some 7 := by
        simp only [findFirstBelow]
        rw [if_neg (by linarith), if_neg (by linarith), if_neg (by linarith),
          if_neg (by linarith), if_neg (by linarith), if_neg (by linarith),
          if_neg (by linarith), if_pos (by linarith)]
      rw [hfind]
    · have m0 := hmiss 0 (by norm_num)
      have m1 := hmiss 1 (by norm_num)
      have m2 := hmiss 2 (by norm_num)
      have m3 := hmiss 3 (by norm_num)
      have m4 := hmiss 4 (by norm_num)
      have m5 := hmiss 5 (by norm_num)
      have m6 := hmiss 6 (by norm_num)
      have m7 := hmiss 7 (by norm_num)
      norm_num at hhit m0 m1 m2 m3 m4 m5 m6 m7
      have hfind : findFirstBelow price
          [99/100, 197/200, 49/50, 39/40, 97/100, 193/200, 24/25, 191/200, 19/20] 0
          = some 8 := by
        simp only [findFirstBelow]
        rw [if_neg (by linarith), if_neg (by linarith), if_neg (by linarith),
          if_neg (by linarith), if_neg (by linarith), if_neg (by linarith),
          if_neg (by linarith), if_neg (by linarith), if_pos (by linarith)]
      rw [hfind]
  · cases hfi : findFirstBelow price thresholdValues.reverse 0 with
    | none =>
      unfold computeRestoreValuesNewLength
      rw [hfi]
      exact hT
    | some i =>
      unfold computeRestoreValuesNewLength
      rw [hfi]
      dsimp only
      obtain ⟨-, hub⟩ := findFirstBelow_bounds _ 0 i hfi
      have hlen : thresholdValues.reverse.length = 9 := by
        rw [thresholdValues_reverse_eq]
        rfl
      rw [hlen] at hub
      have hi8 : (i : ℤ) ≤ 8 := by omega
      have hipos : (0 : ℤ) ≤ (i : ℤ) := Int.natCast_nonneg i
      have hnonneg : 0 ≤ T * (10 - (i : ℤ)) :=
        mul_nonneg (by linarith) (by linarith)
      rw [Int.tdiv_eq_ediv hnonneg (by norm_num)]
      have h1 : T * (10 - (i : ℤ)) ≤ 10 * T := by nlinarith
      calc T * (10 - (i : ℤ)) / 10 ≤ 10 * T / 10 :=
            Int.ediv_le_ediv (by norm_num) h1
        _ = T := Int.mul_ediv_cancel_left T (by norm_num)

/-- Witness for C7's amended statement at `T = 10` with prices 0.9
(below every threshold) and 0.981 (top-down index 2). -/
theorem compute_restore_values_new_length_amended_witness :
    computeRestoreValuesNewLength 10 (9/10) = 1 ∧
    computeRestoreValuesNewLength 10 (981/1000) = (10 * (10 - (2 : ℤ))).tdiv 10 := by
  constructor
  · exact (compute_restore_values_new_length_amended 10 (9/10) (by norm_num)).1
      (by norm_num)
  · exact (compute_restore_values_new_length_amended 10 (981/1000) (by norm_num)).2.1
      2 (by norm_num) (by norm_num)
      (by intro j hj; interval_cases j <;> norm_num)

/-- **C8.** `get_arbitrage_profit` never mutates the pools (the threaded
state comes back unchanged), returns 0 for non-positive input, and for
positive input returns the composition of the three `compute_swap_value`
hops along the type's path minus the input. -/
theorem get_arbitrage_profit_frame_and_value (o : ThreePoolsOptimizer)
    (t : ArbType) (x : ℚ) :
    (x ≤ 0 → getArbitrageProfit o t x = some (0, o)) ∧
    (∀ v o', getArbitrageProfit o t x = some (v, o') → o' = o) ∧
    (0 < x → ∀ v o', getArbitrageProfit o t x = some (v, o') →
      ∃ a b c,
        computeSwapValue
          (match t with | ArbType.type1 => o.pool1 | ArbType.type2 => o.pool0).fee x
          (match t with | ArbType.type1 => o.pool1 | ArbType.type2 => o.pool0).qb
          (match t with | ArbType.type1 => o.pool1 | ArbType.type2 => o.pool0).qa
          = some a ∧
        (match t with
          | ArbType.type1 => computeSwapValue o.vpool.fee a o.vpool.qb o.vpool.qa
          | ArbType.type2 => computeSwapValue o.vpool.fee a o.vpool.qa o.vpool.qb)
          = some b ∧
        computeSwapValue
          (match t with | ArbType.type1 => o.pool0 | ArbType.type2 => o.pool1).fee b
          (match t with | ArbType.type1 => o.pool0 | ArbType.type2 => o.pool1).qa
          (match t with | ArbType.type1 => o.pool0 | ArbType.type2 => o.pool1).qb
          = some c ∧
        v = c - x) := by
  cases t with
  | type1 =>
    refine ⟨?_, ?_, ?_⟩
    · intro hx
      unfold getArbitrageProfit
      dsimp only
      rw [if_neg (not_lt.mpr hx)]
    · intro v o' h
      unfold getArbitrageProfit at h
      dsimp only at h
      by_cases hx : 0 < x
      · rw [if_pos hx] at h
        cases h1 : computeSwapValue o.pool1.fee x o.pool1.qb o.pool1.qa with
        | none => rw [h1] at h; cases h
        | some a =>
          rw [h1] at h
          dsimp only at h
          cases h2 : computeSwapValue o.vpool.fee a o.vpool.qb o.vpool.qa with
          | none => rw [h2] at h; cases h
          | some b =>
            rw [h2] at h
            dsimp only at h
            cases h3 : computeSwapValue o.pool0.fee b o.pool0.qa o.pool0.qb with
            | none => rw [h3] at h; cases h
            | some c =>
              rw [h3] at h
              simp only [Option.some.injEq, Prod.mk.injEq] at h
              exact h.2.symm
      · rw [if_neg hx] at h
        simp only [Option.some.injEq, Prod.mk.injEq] at h
        exact h.2.symm
    · intro hx v o' h
      unfold getArbitrageProfit at h
      dsimp only at h
      rw [if_pos hx] at h
      cases h1 : computeSwapValue o.pool1.fee x o.pool1.qb o.pool1.qa with
      | none => rw [h1] at h; cases h
      | some a =>
        rw [h1] at h
        dsimp only at h
        cases h2 : computeSwapValue o.vpool.fee a o.vpool.qb o.vpool.qa with
        | none => rw [h2] at h; cases h
        | some b =>
          rw [h2] at h
          dsimp only at h
          cases h3 : computeSwapValue o.pool0.fee b o.pool0.qa o.pool0.qb with
          | none => rw [h3] at h; cases h
          | some c =>
            rw [h3] at h
            simp only [Option.some.injEq, Prod.mk.injEq] at h
            exact ⟨a, b, c, rfl, h2, h3, h.1.symm⟩
  | type2 =>
    refine ⟨?_, ?_, ?_⟩
    · intro hx
      unfold getArbitrageProfit
      dsimp only
      rw [if_neg (not_lt.mpr hx)]
    · intro v o' h
      unfold getArbitrageProfit at h
      dsimp only at h
      by_cases hx : 0 < x
      · rw [if_pos hx] at h
        cases h1 : computeSwapValue o.pool0.fee x o.pool0.qb o.pool0.qa with
        | none => rw [h1] at h; cases h
        | some a =>
          rw [h1] at h
          dsimp only at h
          cases h2 : computeSwapValue o.vpool.fee a o.vpool.qa o.vpool.qb with
          | none => rw [h2] at h; cases h
          | some b =>
            rw [h2] at h
            dsimp only at h
            cases h3 : computeSwapValue o.pool1.fee b o.pool1.qa o.pool1.qb with
            | none => rw [h3] at h; cases h
            | some c =>
              rw [h3] at h
              simp only [Option.some.injEq, Prod.mk.injEq] at h
              exact h.2.symm
      · rw [if_neg hx] at h
        simp only [Option.some.injEq, Prod.mk.injEq] at h
        exact h.2.symm
    · intro hx v o' h
      unfold getArbitrageProfit at h
      dsimp only at h
      rw [if_pos hx] at h
      cases h1 : computeSwapValue o.pool0.fee x o.pool0.qb o.pool0.qa with
      | none => rw [h1] at h; cases h
      | some a =>
        rw [h1] at h
        dsimp only at h
        cases h2 : computeSwapValue o.vpool.fee a o.vpool.qa o.vpool.qb with
        | none => rw [h2] at h; cases h
        | some b =>
          rw [h2] at h
          dsimp only at h
          cases h3 : computeSwapValue o.pool1.fee b o.pool1.qa o.pool1.qb with
          | none => rw [h3] at h; cases h
          | some c =>
            rw [h3] at h
            simp only [Option.some.injEq, Prod.mk.injEq] at h
            exact ⟨a, b, c, rfl, h2, h3, h.1.symm⟩

/-- Witness for C8 on a balanced fee-free configuration: zero profit slot for
a non-positive probe, and the three-hop decomposition at probe 10 (profit
`1000/103 - 10 = -30/103`: equilibrium plus slippage is unprofitable). -/
theorem get_arbitrage_profit_frame_and_value_witness :
    getArbitrageProfit c8ExampleOptimizer ArbType.type1 (-1)
      = some (0, c8ExampleOptimizer) ∧
    (∃ a b c,
      computeSwapValue c8ExampleOptimizer.pool1.fee 10
        c8ExampleOptimizer.pool1.qb c8ExampleOptimizer.pool1.qa = some a ∧
      computeSwapValue c8ExampleOptimizer.vpool.fee a
        c8ExampleOptimizer.vpool.qb c8ExampleOptimizer.vpool.qa = some b ∧
      computeSwapValue c8ExampleOptimizer.pool0.fee b
        c8ExampleOptimizer.pool0.qa c8ExampleOptimizer.pool0.qb = some c ∧
      (-30/103 : ℚ) = c - 10) := by
  have heval : getArbitrageProfit c8ExampleOptimizer ArbType.type1 10
      = some (-30/103, c8ExampleOptimizer) := by
    norm_num [getArbitrageProfit, computeSwapValue, cpfApply, c8ExampleOptimizer]
  constructor
  · exact (get_arbitrage_profit_frame_and_value c8ExampleOptimizer ArbType.type1 (-1)).1
      (by norm_num)
  · exact (get_arbitrage_profit_frame_and_value c8ExampleOptimizer ArbType.type1 10).2.2
      (by norm_num) (-30/103) c8ExampleOptimizer heval

end DualTokenSim
